import Mathlib

/-!
Verification of the liferaypedia-openzim-reader extraction pipeline.

The development shallowly embeds the Python modules
`liferaypedia_openzim_reader/zimreader.py` and
`liferaypedia_openzim_reader/htmlinspector.py`.  Pure functions become Lean
functions over `String`/`List Char`/`Nat`; the archive and the HTML parser
(libzim and BeautifulSoup, external collaborators per the specification) are
modelled at their interface boundary: the archive as a lookup function from
numeric ids to entries, the parser as an abstract function from strings to
document trees.  The `while` loop of `iter_zim_entries` is embedded with
explicit fuel, which lets non-termination of the source loop be expressed as
the run returning `none` for every fuel.

String primitives are modelled on `List Char` (the code points of the
string), mirroring the Python semantics of `str.startswith`, `in`,
`str.split`, `str.strip` and `str.lower` for the inputs the program handles.
-/

/-! ## Python string primitives -/

/-- Model of Python `str.lower` (per code point, as used on ASCII data). -/
def pyLower (s : String) : String := String.mk (s.data.map Char.toLower)

/-- Whitespace recognised by Python `str.strip()` (ASCII whitespace). -/
def pyIsSpace (c : Char) : Bool :=
  c == ' ' || c == '\t' || c == '\n' || c == '\r' || c == '\x0b' || c == '\x0c'

/-- Model of Python `str.strip()`: drop whitespace from both ends. -/
def pyStrip (s : String) : String :=
  String.mk (((s.data.dropWhile pyIsSpace).reverse.dropWhile pyIsSpace).reverse)

/-- Model of Python `s.startswith(p)`. -/
def pyStartsWith (s p : String) : Bool := p.data.isPrefixOf s.data

/-- Model of Python `c in s` for a single-character needle. -/
def pyContainsChar (s : String) (c : Char) : Bool := s.data.contains c

/-- Characters strictly before the first occurrence of `c` (the whole list
when `c` does not occur). -/
def beforeFirst (c : Char) : List Char → List Char
  | [] => []
  | x :: xs => if x == c then [] else x :: beforeFirst c xs

/-- Model of Python `s.split(c)[0]`. -/
def splitHead (c : Char) (s : String) : String := String.mk (beforeFirst c s.data)

/-- Model of Python `s.split(c)[-1]`: the part after the last occurrence of
`c` (the whole string when `c` does not occur). -/
def splitLast (c : Char) (s : String) : String :=
  String.mk ((beforeFirst c s.data.reverse).reverse)

/-- Model of Python `s[1:]` for dropping one leading character. -/
def pyDropOne (s : String) : String := String.mk (s.data.drop 1)

/-! ## Path classifier (`zimreader.py`, `deduce_namespace`) -/

/-- Embedding of `deduce_namespace` from `zimreader.py`.  The Python body
initialises `namespace = "main"`, keeps it for paths starting with dash-slash
or slash, and otherwise takes the part before the first slash when that part
is non-empty and different from `-`. -/
def deduce_namespace (entry_path : String) : String :=
  if pyStartsWith entry_path "-/" || pyStartsWith entry_path "/" then
    "main"
  else if pyContainsChar entry_path '/' then
    let namespace_part := splitHead '/' entry_path
    if namespace_part != "" && namespace_part != "-" then namespace_part
    else "main"
  else
    "main"

/-- Embedding of `get_entry_type_and_namespace` from `zimreader.py`: the
`if`/`elif` chain from namespace to base type, then the extension-based
override for the `File` namespace (Python `entry_path.split(".")[-1].lower()`
with membership tests in the five extension lists). -/
def get_entry_type_and_namespace (entry_path : String) : String × String :=
  let ns := deduce_namespace entry_path
  let entry_type :=
    if ns == "main" then "page"
    else if ns == "A" then "article"
    else if ns == "I" then "image"
    else if ns == "Category" then "category"
    else if ns == "Discussion" then "discussion"
    else if ns == "File" then "file"
    else if ns == "Template" then "template"
    else if ns == "Help" then "help"
    else if ns == "Portal" then "portal"
    else if ns == "Book" then "book"
    else if ns == "MediaWiki" then "mediawiki"
    else "unknown"
  let entry_type :=
    if ns == "File" then
      let extension := pyLower (splitLast '.' entry_path)
      if extension ∈ ["jpg", "jpeg", "png", "gif", "svg", "webp"] then "image"
      else if extension ∈ ["pdf", "doc", "docx", "txt", "rtf"] then "document"
      else if extension ∈ ["mp3", "wav", "ogg", "flac", "aac"] then "audio"
      else if extension ∈ ["mp4", "avi", "mov", "wmv", "flv"] then "video"
      else if extension ∈ ["zip", "rar", "7z", "tar", "gz"] then "archive"
      else entry_type
    else entry_type
  (entry_type, ns)

/-! ## Specification-side classifier (used to settle C4 as a refinement) -/

/-- Namespace deduction written directly from the words of the spec:
sentinel `main` for paths starting with dash-slash or slash, else the
segment before the first slash unless empty or exactly `-`, else `main`. -/
def specNamespaceOf (p : String) : String :=
  if pyStartsWith p "-/" || pyStartsWith p "/" then "main"
  else if pyContainsChar p '/' then
    let seg := splitHead '/' p
    if seg = "" ∨ seg = "-" then "main" else seg
  else "main"

/-- Fixed namespace-to-type table from the spec. -/
def specTypeTable : List (String × String) :=
  [("main", "page"), ("A", "article"), ("I", "image"), ("Category", "category"),
   ("Discussion", "discussion"), ("File", "file"), ("Template", "template"),
   ("Help", "help"), ("Portal", "portal"), ("Book", "book"),
   ("MediaWiki", "mediawiki")]

/-- Extension-to-type tables from the spec, defaulting to `file`. -/
def specFileExtType (ext : String) : String :=
  if ext ∈ ["jpg", "jpeg", "png", "gif", "svg", "webp"] then "image"
  else if ext ∈ ["pdf", "doc", "docx", "txt", "rtf"] then "document"
  else if ext ∈ ["mp3", "wav", "ogg", "flac", "aac"] then "audio"
  else if ext ∈ ["mp4", "avi", "mov", "wmv", "flv"] then "video"
  else if ext ∈ ["zip", "rar", "7z", "tar", "gz"] then "archive"
  else "file"

/-- Classifier written from the words of the spec: table lookup with default
`unknown`, with the `File` namespace re-deriving the type from the lowercased
extension after the last dot. -/
def specClassify (p : String) : String × String :=
  let ns := specNamespaceOf p
  let base := (specTypeTable.lookup ns).getD "unknown"
  let t := if ns = "File" then specFileExtType (pyLower (splitLast '.' p)) else base
  (t, ns)

/-! ## Structural skip policy (`zimreader.py`, `to_skip`) -/

/-- Item attached to an archive entry (libzim `Item` boundary): mimetype,
raw byte content, title and byte size. -/
structure Item where
  mimetype : String
  title : String
  content : List Nat
  size : Nat
deriving Repr, DecidableEq

/-- Archive entry (libzim `Entry` boundary).  `item` models `get_item()`. -/
structure Entry where
  path : String
  title : String
  is_redirect : Bool
  item : Item
deriving Repr, DecidableEq

/-- Embedding of `to_skip` from `zimreader.py`: skip container redirects and
entries whose item mimetype is exactly `application/javascript`. -/
def to_skip (entry : Entry) : Bool :=
  if entry.is_redirect then true
  else if entry.item.mimetype == "application/javascript" then true
  else false

/-! ## Document tree model (BeautifulSoup boundary)

The markup parser is an external collaborator; a parsed document is a list
of tree nodes.  Element names and attribute names are stored as produced by
the parser (`html.parser` normalises them to lowercase; attribute values of
valueless attributes become the empty string).  `nodesFindAll` models
`soup.find_all(name)` (document order, element before its descendants) and
`nodesFind` models `soup.find(name)`. -/

/-- Node of a parsed document tree: text, or an element with a name, an
attribute list and children. -/
inductive Node where
  | text : String → Node
  | elem : String → List (String × String) → List Node → Node

/-- Attribute list of a node (empty for text nodes). -/
def Node.attrs : Node → List (String × String)
  | .text _ => []
  | .elem _ a _ => a

/-- Children of a node (empty for text nodes). -/
def Node.children : Node → List Node
  | .text _ => []
  | .elem _ _ c => c

/-- Model of BeautifulSoup `tag.get(key, dflt)`: first binding of `key` in
the attribute list, or the default. -/
def attrGet (attrs : List (String × String)) (key dflt : String) : String :=
  match attrs.find? (fun p => p.fst == key) with
  | some p => p.snd
  | none => dflt

/-- Whether an attribute is present (models `find_all(..., attr=True)`
filtering). -/
def hasAttr (attrs : List (String × String)) (key : String) : Bool :=
  (attrs.find? (fun p => p.fst == key)).isSome

mutual
/-- Elements with the given name in the subtree of a node, document order. -/
def nodeFindAll (nm : String) : Node → List Node
  | .text _ => []
  | .elem n a c => (if n == nm then [Node.elem n a c] else []) ++ nodesFindAll nm c
/-- Elements with the given name in a forest, document order (models
`soup.find_all(nm)`). -/
def nodesFindAll (nm : String) : List Node → List Node
  | [] => []
  | x :: xs => nodeFindAll nm x ++ nodesFindAll nm xs
end

mutual
/-- First element with the given name in the subtree of a node. -/
def nodeFind (nm : String) : Node → Option Node
  | .text _ => none
  | .elem n a c => if n == nm then some (.elem n a c) else nodesFind nm c
/-- First element with the given name in a forest (models `soup.find(nm)`). -/
def nodesFind (nm : String) : List Node → Option Node
  | [] => none
  | x :: xs =>
    match nodeFind nm x with
    | some r => some r
    | none => nodesFind nm xs
end

/-- Serialisation of an attribute list (model of the serialiser used by
`decode_contents`). -/
def serializeAttrs (attrs : List (String × String)) : String :=
  attrs.foldl (fun acc p => acc ++ " " ++ p.fst ++ "=\"" ++ p.snd ++ "\"") ""

mutual
/-- Serialisation of one node. -/
def serializeNode : Node → String
  | .text s => s
  | .elem n a c =>
    "<" ++ n ++ serializeAttrs a ++ ">" ++ serializeNodes c ++ "</" ++ n ++ ">"
/-- Serialisation of a forest; `serializeNodes n.children` models
`n.decode_contents()`. -/
def serializeNodes : List Node → String
  | [] => ""
  | x :: xs => serializeNode x ++ serializeNodes xs
end

/-! ## HtmlInspector (`htmlinspector.py`)

`HtmlInspector(content)` parses `content` once and the three methods walk
the resulting tree; `zimreader.py` uses them through module-level wrappers
applied to a content string.  Every function below therefore takes the
parser `parse` as an explicit parameter and first applies it to the string,
mirroring `self.soup = BeautifulSoup(content, "html.parser")`. -/

/-- Embedding of `HtmlInspector.get_main_content`: the serialised inner
contents of the first `main` element, stripped, or the empty string. -/
def get_main_content (parse : String → List Node) (content : String) : String :=
  match nodesFind "main" (parse content) with
  | some mainTag => pyStrip (serializeNodes mainTag.children)
  | none => ""

/-- Loop body test of `HtmlInspector.is_redirect_by_meta_tag`: the meta
element has a case-insensitive `http-equiv` value equal to `refresh` and a
non-empty (truthy) `content` attribute. -/
def metaIsRefresh (meta : Node) : Bool :=
  pyLower (attrGet meta.attrs "http-equiv" "") == "refresh" &&
    attrGet meta.attrs "content" "" != ""

/-- Embedding of `HtmlInspector.is_redirect_by_meta_tag`: scan all `meta`
elements of the parsed document, returning true on the first one whose
`http-equiv` is `refresh` (case-insensitively) with a truthy `content`. -/
def is_redirect_by_meta_tag (parse : String → List Node) (content : String) : Bool :=
  (nodesFindAll "meta" (parse content)).any metaIsRefresh

/-- Python `href.split("#")[0].split("?")[0]`. -/
def truncateAtHashQuery (s : String) : String :=
  splitHead '?' (splitHead '#' s)

/-- Python `if href.startswith("/"): href = href[1:]`. -/
def stripLeadingSlash (s : String) : String :=
  if pyStartsWith s "/" then pyDropOne s else s

/-- Candidate produced by one anchor of the category loop of
`extract_category_and_image_paths`: strip, drop one leading slash, keep only
values starting with `Category/`, truncate at the first `#` or `?`, drop
empty results. -/
def catCandidate (href : String) : Option String :=
  let href := stripLeadingSlash (pyStrip href)
  if pyStartsWith href "Category/" then
    let path := truncateAtHashQuery href
    if path != "" then some path else none
  else none

/-- Candidate produced by one image of the image loop of
`extract_category_and_image_paths` (same processing without the
`Category/` filter). -/
def imgCandidate (src : String) : Option String :=
  let src := stripLeadingSlash (pyStrip src)
  let path := truncateAtHashQuery src
  if path != "" then some path else none

/-- Anchor elements carrying an `href` attribute, in document order. -/
def anchorsWithHref (doc : List Node) : List Node :=
  (nodesFindAll "a" doc).filter (fun n => hasAttr n.attrs "href")

/-- Image elements carrying a `src` attribute, in document order. -/
def imagesWithSrc (doc : List Node) : List Node :=
  (nodesFindAll "img" doc).filter (fun n => hasAttr n.attrs "src")

/-- Embedding of `HtmlInspector.extract_category_and_image_paths`: two
accumulator loops with membership-checked appends. -/
def extract_category_and_image_paths (parse : String → List Node)
    (content : String) : List String × List String :=
  let doc := parse content
  let category_paths := (anchorsWithHref doc).foldl (fun acc a =>
    match catCandidate (attrGet a.attrs "href" "") with
    | some path => if acc.contains path then acc else acc ++ [path]
    | none => acc) []
  let image_paths := (imagesWithSrc doc).foldl (fun acc im =>
    match imgCandidate (attrGet im.attrs "src" "") with
    | some path => if acc.contains path then acc else acc ++ [path]
    | none => acc) []
  (category_paths, image_paths)

/-- First-occurrence deduplication, written from the words of the spec:
keep each element at its first occurrence, dropping later duplicates. -/
def firstOccurDedup : List String → List String
  | [] => []
  | x :: xs => x :: firstOccurDedup (xs.filter (fun y => y != x))
termination_by l => l.length
decreasing_by
  simp only [List.length_cons]
  exact Nat.lt_succ_of_le (List.length_filter_le _ _)

/-! ## Base64 encoder (model of `base64.b64encode` on a byte sequence) -/

/-- Base64 alphabet, in encoding order. -/
def b64Alphabet : List Char :=
  "ABCDEFGHIJKLMNOPQRSTUVWXYZabcdefghijklmnopqrstuvwxyz0123456789+/".data

/-- Character for a 6-bit group. -/
def b64Char (n : Nat) : Char := b64Alphabet.getD n 'A'

/-- Standard base64 encoding of a byte sequence (bytes taken mod 256),
with `=` padding, as produced by `base64.b64encode(...).decode("ascii")`. -/
def b64encode : List Nat → List Char
  | [] => []
  | [a] =>
    let a := a % 256
    [b64Char (a / 4), b64Char (a % 4 * 16), '=', '=']
  | [a, b] =>
    let a := a % 256
    let b := b % 256
    [b64Char (a / 4), b64Char (a % 4 * 16 + b / 16), b64Char (b % 16 * 4), '=']
  | a :: b :: c :: rest =>
    let a := a % 256
    let b := b % 256
    let c := c % 256
    [b64Char (a / 4), b64Char (a % 4 * 16 + b / 16),
     b64Char (b % 16 * 4 + c / 64), b64Char (c % 64)] ++ b64encode rest

/-! ## UTF-8 decoding with replacement (model of `bytes.decode("utf-8",
errors="replace")`)

The decoder consumes at least one byte per step, so running it with fuel
equal to the byte count is exact.  Invalid lead bytes and truncated
sequences produce the replacement character, continuing after the longest
valid prefix of the sequence, as CPython does. -/

/-- Whether a byte is a UTF-8 continuation byte. -/
def isCont (b : Nat) : Bool := 128 ≤ b && b < 192

/-- Fuel-driven UTF-8 decoding loop. -/
def utf8Go : Nat → List Nat → List Char
  | 0, _ => []
  | _, [] => []
  | fuel + 1, b :: rest =>
    if b < 128 then Char.ofNat b :: utf8Go fuel rest
    else if 194 ≤ b && b ≤ 223 then
      match rest with
      | c1 :: rest2 =>
        if isCont c1 then
          Char.ofNat ((b - 192) * 64 + (c1 - 128)) :: utf8Go fuel rest2
        else '�' :: utf8Go fuel rest
      | [] => ['�']
    else if 224 ≤ b && b ≤ 239 then
      match rest with
      | c1 :: rest2 =>
        if (b == 224 && 160 ≤ c1 && c1 ≤ 191) ||
            (224 < b && b < 237 && isCont c1) ||
            (b == 237 && 128 ≤ c1 && c1 ≤ 159) ||
            (237 < b && isCont c1) then
          match rest2 with
          | c2 :: rest3 =>
            if isCont c2 then
              Char.ofNat ((b - 224) * 4096 + (c1 - 128) * 64 + (c2 - 128)) ::
                utf8Go fuel rest3
            else '�' :: utf8Go fuel rest2
          | [] => ['�']
        else '�' :: utf8Go fuel rest
      | [] => ['�']
    else if 240 ≤ b && b ≤ 244 then
      match rest with
      | c1 :: rest2 =>
        if (b == 240 && 144 ≤ c1 && c1 ≤ 191) ||
            (240 < b && b < 244 && isCont c1) ||
            (b == 244 && 128 ≤ c1 && c1 ≤ 143) then
          match rest2 with
          | c2 :: rest3 =>
            if isCont c2 then
              match rest3 with
              | c3 :: rest4 =>
                if isCont c3 then
                  Char.ofNat ((b - 240) * 262144 + (c1 - 128) * 4096 +
                      (c2 - 128) * 64 + (c3 - 128)) :: utf8Go fuel rest4
                else '�' :: utf8Go fuel rest3
              | [] => ['�']
            else '�' :: utf8Go fuel rest2
          | [] => ['�']
        else '�' :: utf8Go fuel rest
      | [] => ['�']
    else '�' :: utf8Go fuel rest

/-- Model of Python `raw.decode("utf-8", errors="replace")`. -/
def utf8DecodeReplace (l : List Nat) : String := String.mk (utf8Go l.length l)

/-! ## Extraction pipeline (`zimreader.py`, `iter_zim_entries`) -/

/-- Content decoding step of the loop body: UTF-8 with replacement for
mimetypes starting with `text`, base64 text otherwise. -/
def decodeContent (item : Item) : String :=
  if pyStartsWith item.mimetype "text" then utf8DecodeReplace item.content
  else String.mk (b64encode item.content)

/-- Output record of the pipeline (the Python dict yielded per accepted
entry).  The `namespace` key of the dict is the `nspace` field here, since
`namespace` is reserved in Lean; `category_paths`/`image_paths` are `none`
exactly when the keys are absent from the dict. -/
structure Record where
  id : Nat
  path : String
  title : String
  type : String
  mime_type : String
  is_redirect : Bool
  nspace : String
  content : String
  size_bytes : Nat
  category_paths : Option (List String)
  image_paths : Option (List String)
deriving Repr, DecidableEq

/-- Archive boundary (libzim `Archive`): total entry count and lookup by
numeric id.  A failed lookup or item resolution is an `error` carrying the
text of the raised exception, matching the `try`/`except` in the loop. -/
structure Archive where
  entry_count : Nat
  getEntryById : Nat → Except String Entry

/-- Loop body of `iter_zim_entries` for one successfully looked-up entry:
structural skip, content decode, content-based redirect check, path
classification, main-fragment replacement for article/category, record
construction, and link harvesting for articles.  An `error` result carries
the printed skip message. -/
def processEntry (parse : String → List Node) (entry_id : Nat) (entry : Entry) :
    Except String Record :=
  let item := entry.item
  if to_skip entry then Except.error ("skipping " ++ item.title)
  else
    let content := decodeContent item
    if is_redirect_by_meta_tag parse content then
      Except.error ("skipping " ++ item.title)
    else
      let tn := get_entry_type_and_namespace entry.path
      let entry_type := tn.fst
      let content :=
        if entry_type == "article" || entry_type == "category" then
          get_main_content parse content
        else content
      let base : Record :=
        { id := entry_id, path := entry.path, title := entry.title,
          type := entry_type, mime_type := item.mimetype,
          is_redirect := entry.is_redirect, nspace := tn.snd,
          content := content, size_bytes := item.size,
          category_paths := none, image_paths := none }
      if entry_type == "article" then
        let ci := extract_category_and_image_paths parse content
        Except.ok { base with category_paths := some ci.fst,
                              image_paths := some ci.snd }
      else Except.ok base

/-- Observable outcome of a finished scan: the yielded records in order,
the raw ids attempted in order, and the printed skip messages in order. -/
structure ScanResult where
  records : List Record
  attempted : List Nat
  log : List String
deriving Repr, DecidableEq

/-- Fuel-driven embedding of the `while count < limit` loop of
`iter_zim_entries`: `entry_id` is incremented first, the id is looked up
(failures are logged and skipped), the body either logs a skip or yields a
record and increments `count`.  `none` means the fuel ran out before the
loop condition became false, so the source loop has not terminated within
that many iterations. -/
def scanLoop (parse : String → List Node) (ar : Archive) (limit : Nat) :
    Nat → Nat → Nat → List Record → List Nat → List String → Option ScanResult
  | 0, _, count, recs, att, log =>
    if count < limit then none else some ⟨recs, att, log⟩
  | fuel + 1, entry_id, count, recs, att, log =>
    if count < limit then
      match ar.getEntryById (entry_id + 1) with
      | Except.error e =>
        scanLoop parse ar limit fuel (entry_id + 1) count recs
          (att ++ [entry_id + 1])
          (log ++ ["skipping entry " ++ toString (entry_id + 1) ++ ": " ++ e])
      | Except.ok entry =>
        match processEntry parse (entry_id + 1) entry with
        | Except.error msg =>
          scanLoop parse ar limit fuel (entry_id + 1) count recs
            (att ++ [entry_id + 1]) (log ++ [msg])
        | Except.ok r =>
          scanLoop parse ar limit fuel (entry_id + 1) (count + 1) (recs ++ [r])
            (att ++ [entry_id + 1]) log
    else some ⟨recs, att, log⟩

/-- Embedding of `iter_zim_entries(zim_path, max_objects)` over an already
opened archive: `limit = min(max_objects, zim.entry_count)`, starting from
`entry_id = 0`, `count = 0`. -/
def iter_zim_entries (parse : String → List Node) (ar : Archive) (fuel : Nat)
    (max_objects : Nat) : Option ScanResult :=
  let total := ar.entry_count
  let limit := min max_objects total
  scanLoop parse ar limit fuel 0 0 [] [] []

/-! ## Concrete fixtures

Small concrete parsers, entries and archives used to evaluate the embedded
pipeline at specific inputs. -/

/-- Parser returning an empty document for every input (adequate for inputs
that contain no markup). -/
def emptyParse : String → List Node := fun _ => []

/-- Parser returning a single meta-refresh element for every input. -/
def metaRefreshParse : String → List Node := fun _ =>
  [Node.elem "meta" [("http-equiv", "refresh"), ("content", "5")] []]

/-- Container-level redirect entry. -/
def redirectEntry : Entry :=
  { path := "A/Old", title := "Old", is_redirect := true,
    item := { mimetype := "text/html", title := "Old", content := [], size := 0 } }

/-- Ordinary binary (PNG) entry. -/
def imageEntry : Entry :=
  { path := "I/pic.png", title := "pic.png", is_redirect := false,
    item := { mimetype := "image/png", title := "pic.png",
              content := [1, 2, 3], size := 3 } }

/-- Ordinary article entry with empty binary content. -/
def articleEntry : Entry :=
  { path := "A/Art", title := "Art", is_redirect := false,
    item := { mimetype := "image/gif", title := "Art", content := [], size := 0 } }

/-- Archive with two entries: raw id 1 is a container redirect, raw id 2 an
ordinary image; every other id fails to resolve. -/
def archiveA : Archive :=
  { entry_count := 2,
    getEntryById := fun i =>
      if i = 1 then Except.ok redirectEntry
      else if i = 2 then Except.ok imageEntry
      else Except.error "index out of range" }

/-- Archive with two entries: raw id 1 fails to resolve, raw id 2 is an
ordinary image; every other id fails to resolve. -/
def archiveB : Archive :=
  { entry_count := 2,
    getEntryById := fun i =>
      if i = 1 then Except.error "boom"
      else if i = 2 then Except.ok imageEntry
      else Except.error "index out of range" }

/-- Record produced for `imageEntry` at raw id 2. -/
def imageRecord : Record :=
  { id := 2, path := "I/pic.png", title := "pic.png", type := "image",
    mime_type := "image/png", is_redirect := false, nspace := "I",
    content := String.mk (b64encode [1, 2, 3]), size_bytes := 3,
    category_paths := none, image_paths := none }

/-- Record produced for `articleEntry` at raw id 5 under `emptyParse`. -/
def articleRecord : Record :=
  { id := 5, path := "A/Art", title := "Art", type := "article",
    mime_type := "image/gif", is_redirect := false, nspace := "A",
    content := "", size_bytes := 0,
    category_paths := some [], image_paths := some [] }

/-- Finished scan of `archiveA` with `max_objects = 1`. -/
def resultA : ScanResult :=
  { records := [imageRecord], attempted := [1, 2], log := ["skipping Old"] }

/-- Finished scan of `archiveB` with `max_objects = 1`. -/
def resultB : ScanResult :=
  { records := [imageRecord], attempted := [1, 2],
    log := ["skipping entry 1: boom"] }

/-- Category path candidates of a document, one per anchor carrying `href`,
before deduplication. -/
def categoryCandidates (doc : List Node) : List String :=
  (anchorsWithHref doc).filterMap (fun a => catCandidate (attrGet a.attrs "href" ""))

/-- Image path candidates of a document, one per image carrying `src`,
before deduplication. -/
def imageCandidates (doc : List Node) : List String :=
  (imagesWithSrc doc).filterMap (fun im => imgCandidate (attrGet im.attrs "src" ""))

/-! ## Sanity checks

The runnable examples from the Python docstrings and tests, evaluated on
the embedding. -/

example : deduce_namespace "I/cat.png" = "I" := by decide
example : deduce_namespace "-/Main_Page" = "main" := by decide
example : deduce_namespace "/Entry" = "main" := by decide
example : deduce_namespace "lostmedia" = "main" := by decide
example : get_entry_type_and_namespace "-/Main_Page" = ("page", "main") := by decide
example : get_entry_type_and_namespace "A/Bobsled" = ("article", "A") := by decide
example : get_entry_type_and_namespace "humanities.jpg" = ("page", "main") := by decide
example : get_entry_type_and_namespace "I/cat.mp4" = ("image", "I") := by decide
example : get_entry_type_and_namespace "File/cat.png" = ("image", "File") := by decide
example : get_entry_type_and_namespace "File/novel.pdf" = ("document", "File") := by decide
example : get_entry_type_and_namespace "File/jazz.ogg" = ("audio", "File") := by decide
example : String.mk (b64encode [1, 2, 3]) = "AQID" := by decide
example : utf8DecodeReplace [104, 105] = "hi" := by decide

/-! ## Lemmas about first-occurrence deduplication -/

/-- Folding the membership-checked append over candidates produced by `f`
equals folding it over the `filterMap` of `f`. -/
theorem foldl_insert_filterMap {α : Type} (f : α → Option String) (l : List α)
    (acc : List String) :
    l.foldl (fun acc a =>
        match f a with
        | some p => if acc.contains p then acc else acc ++ [p]
        | none => acc) acc =
      (l.filterMap f).foldl
        (fun acc p => if acc.contains p then acc else acc ++ [p]) acc := by
  induction l generalizing acc with
  | nil => rfl
  | cons x xs ih =>
    cases h : f x with
    | none =>
      simp only [List.foldl_cons, List.filterMap_cons, h]
      exact ih acc
    | some p =>
      simp only [List.foldl_cons, List.filterMap_cons, h]
      exact ih _

/-- Folding the membership-checked append from `acc` appends the
first-occurrence deduplication of the elements not already in `acc`. -/
theorem foldl_insert_eq_dedup (l : List String) (acc : List String) :
    l.foldl (fun acc p => if acc.contains p then acc else acc ++ [p]) acc =
      acc ++ firstOccurDedup (l.filter (fun y => !acc.contains y)) := by
  induction l generalizing acc with
  | nil => simp [firstOccurDedup]
  | cons x xs ih =>
    rw [List.foldl_cons, List.filter_cons]
    by_cases hx : acc.contains x = true
    · rw [if_pos hx]
      have hnx : (!acc.contains x) = false := by rw [hx]; rfl
      rw [hnx, if_neg (by simp)]
      exact ih acc
    · have hx' : acc.contains x = false := by simpa using hx
      rw [if_neg hx]
      have hnx : (!acc.contains x) = true := by rw [hx']; rfl
      rw [hnx, if_pos rfl]
      rw [ih (acc ++ [x])]
      have hfil : xs.filter (fun y => !(acc ++ [x]).contains y) =
          (xs.filter (fun y => !acc.contains y)).filter (fun y => y != x) := by
        rw [List.filter_filter]
        apply List.filter_congr
        intro y _
        by_cases hy : y = x <;> by_cases hm : y ∈ acc <;>
          simp [hy, hm, List.contains_eq_any_beq, bne, Bool.and_comm]
      rw [firstOccurDedup, ← hfil]
      simp

/-- Membership in the first-occurrence deduplication is membership in the
original list. -/
theorem mem_firstOccurDedup : ∀ (l : List String) (y : String),
    y ∈ firstOccurDedup l ↔ y ∈ l := by
  have key : ∀ (n : Nat) (l : List String), l.length ≤ n → ∀ y,
      (y ∈ firstOccurDedup l ↔ y ∈ l) := by
    intro n
    induction n with
    | zero =>
      intro l hl y
      have : l = [] := List.length_eq_zero.mp (Nat.le_zero.mp hl)
      subst this
      simp [firstOccurDedup]
    | succ n ih =>
      intro l hl y
      cases l with
      | nil => simp [firstOccurDedup]
      | cons x xs =>
        have hlen : (xs.filter (fun y => y != x)).length ≤ n :=
          le_trans (List.length_filter_le _ _) (by simpa using hl)
        by_cases hyx : y = x
        · subst hyx
          simp [firstOccurDedup]
        · simp only [firstOccurDedup, List.mem_cons, ih _ hlen y, List.mem_filter]
          simp [hyx, bne]
  exact fun l y => key l.length l le_rfl y

/-- First-occurrence deduplication produces a duplicate-free list. -/
theorem nodup_firstOccurDedup : ∀ l : List String, (firstOccurDedup l).Nodup := by
  have key : ∀ (n : Nat) (l : List String), l.length ≤ n →
      (firstOccurDedup l).Nodup := by
    intro n
    induction n with
    | zero =>
      intro l hl
      have : l = [] := List.length_eq_zero.mp (Nat.le_zero.mp hl)
      subst this
      simp [firstOccurDedup]
    | succ n ih =>
      intro l hl
      cases l with
      | nil => simp [firstOccurDedup]
      | cons x xs =>
        have hlen : (xs.filter (fun y => y != x)).length ≤ n :=
          le_trans (List.length_filter_le _ _) (by simpa using hl)
        rw [firstOccurDedup]
        refine List.nodup_cons.mpr ⟨?_, ih _ hlen⟩
        intro hx
        have := (mem_firstOccurDedup _ x).mp hx
        simp [List.mem_filter] at this
  exact fun l => key l.length l le_rfl

/-! ## First-match search agrees with the head of the full search -/

mutual
/-- Within one node, the first matching element is the head of the full
match list. -/
theorem nodeFind_eq_head (nm : String) : (n : Node) →
    nodeFind nm n = (nodeFindAll nm n).head?
  | .text _ => rfl
  | .elem n a c => by
    rw [nodeFind, nodeFindAll]
    split
    · simp
    · simp [nodesFind_eq_head nm c]
/-- Within a forest, the first matching element is the head of the full
match list. -/
theorem nodesFind_eq_head (nm : String) : (l : List Node) →
    nodesFind nm l = (nodesFindAll nm l).head?
  | [] => rfl
  | x :: xs => by
    rw [nodesFind, nodesFindAll]
    rw [nodeFind_eq_head nm x, nodesFind_eq_head nm xs]
    cases h : (nodeFindAll nm x).head? with
    | none => simp_all [List.head?_append]
    | some r => simp_all [List.head?_append]
end

/-! ## Claim C6 -/

/-- C6: for every input string, the redirect detector (a total function of
the parsed document) classifies the document as a soft redirect exactly when
some `meta` element of the parsed tree has an `http-equiv` value equal to
`refresh` case-insensitively together with a non-empty `content` attribute;
in all other cases, including when the parse yields no elements at all, it
reports not-a-redirect. -/
theorem c6_redirect_detector (parse : String → List Node) (s : String) :
    is_redirect_by_meta_tag parse s = true ↔
      ∃ m ∈ nodesFindAll "meta" (parse s),
        pyLower (attrGet m.attrs "http-equiv" "") = "refresh" ∧
        attrGet m.attrs "content" "" ≠ "" := by
  simp [is_redirect_by_meta_tag, metaIsRefresh, List.any_eq_true, bne_iff_ne]

/-! ## Claim C8 -/

/-- C8: link harvesting returns the first-occurrence deduplication of the
category candidates (anchor `href` values trimmed, stripped of one leading
slash, filtered on the `Category/` prefix, truncated at `#`/`?`, dropped if
empty) and of the image candidates (image `src` values processed the same
way without the prefix filter); both result lists are duplicate-free and
contain exactly the candidate values. -/
theorem c8_link_harvesting (parse : String → List Node) (s : String) :
    extract_category_and_image_paths parse s =
      (firstOccurDedup (categoryCandidates (parse s)),
        firstOccurDedup (imageCandidates (parse s))) ∧
    ((extract_category_and_image_paths parse s).fst.Nodup ∧
      (extract_category_and_image_paths parse s).snd.Nodup) ∧
    (∀ x, x ∈ (extract_category_and_image_paths parse s).fst ↔
      x ∈ categoryCandidates (parse s)) ∧
    (∀ x, x ∈ (extract_category_and_image_paths parse s).snd ↔
      x ∈ imageCandidates (parse s)) := by
  have heq : extract_category_and_image_paths parse s =
      (firstOccurDedup (categoryCandidates (parse s)),
        firstOccurDedup (imageCandidates (parse s))) := by
    simp only [extract_category_and_image_paths, categoryCandidates,
      imageCandidates]
    rw [foldl_insert_filterMap, foldl_insert_filterMap, foldl_insert_eq_dedup,
      foldl_insert_eq_dedup]
    simp
  refine ⟨heq, ⟨?_, ?_⟩, ?_, ?_⟩ <;> rw [heq]
  · exact nodup_firstOccurDedup _
  · exact nodup_firstOccurDedup _
  · exact fun x => mem_firstOccurDedup _ x
  · exact fun x => mem_firstOccurDedup _ x

/-! ## Claim C4 -/

/-- Namespace deduction of the code agrees with the namespace deduction
written from the spec. -/
theorem deduce_namespace_eq_spec (p : String) :
    deduce_namespace p = specNamespaceOf p := by
  simp only [deduce_namespace, specNamespaceOf]
  split
  · rfl
  · split
    · by_cases h1 : splitHead '/' p = "" <;> by_cases h2 : splitHead '/' p = "-" <;>
        simp [h1, h2]
    · rfl

/-- The namespace-to-type `elif` chain of the code computes the table lookup
of the spec with default `unknown`. -/
theorem typeChain_eq_lookup (ns : String) :
    (if ns == "main" then "page"
      else if ns == "A" then "article"
      else if ns == "I" then "image"
      else if ns == "Category" then "category"
      else if ns == "Discussion" then "discussion"
      else if ns == "File" then "file"
      else if ns == "Template" then "template"
      else if ns == "Help" then "help"
      else if ns == "Portal" then "portal"
      else if ns == "Book" then "book"
      else if ns == "MediaWiki" then "mediawiki"
      else "unknown") = (specTypeTable.lookup ns).getD "unknown" := by
  simp only [specTypeTable, List.lookup]
  cases h1 : ns == "main"
  case true => rfl
  cases h2 : ns == "A"
  case true => rfl
  cases h3 : ns == "I"
  case true => rfl
  cases h4 : ns == "Category"
  case true => rfl
  cases h5 : ns == "Discussion"
  case true => rfl
  cases h6 : ns == "File"
  case true => rfl
  cases h7 : ns == "Template"
  case true => rfl
  cases h8 : ns == "Help"
  case true => rfl
  cases h9 : ns == "Portal"
  case true => rfl
  cases h10 : ns == "Book"
  case true => rfl
  cases h11 : ns == "MediaWiki"
  case true => rfl
  rfl

/-- C4: the path classifier is total and agrees, on every path string, with
the classifier written from the words of the spec: namespace by the
dash-slash/slash/first-segment rule, type by the fixed namespace table with
default `unknown`, and for the `File` namespace the type re-derived from the
lowercased extension with default `file`. -/
theorem c4_classifier_refines_spec (p : String) :
    get_entry_type_and_namespace p = specClassify p := by
  simp only [get_entry_type_and_namespace, specClassify, deduce_namespace_eq_spec]
  simp only [typeChain_eq_lookup]
  by_cases hF : specNamespaceOf p = "File"
  · rw [hF]
    rfl
  · have hF' : (specNamespaceOf p == "File") = false := by simpa using hF
    simp only [hF', Bool.false_eq_true, if_false, if_neg hF]

/-! ## Claim C5 -/

/-- C5: the structural skip policy returns skip exactly when the entry is a
container-level redirect or its item mimetype is exactly
`application/javascript`; in particular a non-redirect `text/html` entry is
kept. -/
theorem c5_to_skip_iff (e : Entry) :
    to_skip e = true ↔
      (e.is_redirect = true ∨ e.item.mimetype = "application/javascript") := by
  unfold to_skip
  split
  · simp_all
  · split <;> simp_all

/-! ## Claim C7 -/

/-- C7: main-fragment extraction returns the serialised inner contents of
the first `main` element of the parsed document with surrounding whitespace
stripped, or the empty string when no `main` element exists; and in the
pipeline the record content equals that fragment of the decoded content
exactly when the classified type is `article` or `category`, and equals the
decoded content itself otherwise. -/
theorem c7_main_fragment :
    (∀ (parse : String → List Node) (s : String),
      get_main_content parse s =
        match (nodesFindAll "main" (parse s)).head? with
        | some m => pyStrip (serializeNodes m.children)
        | none => "") ∧
    (∀ (parse : String → List Node) (eid : Nat) (e : Entry) (r : Record),
      processEntry parse eid e = Except.ok r →
      ((r.type = "article" ∨ r.type = "category") →
        r.content = get_main_content parse (decodeContent e.item)) ∧
      (¬(r.type = "article" ∨ r.type = "category") →
        r.content = decodeContent e.item)) := by
  constructor
  · intro parse s
    unfold get_main_content
    rw [nodesFind_eq_head]
  · intro parse eid e r h
    simp only [processEntry] at h
    by_cases ht : to_skip e = true
    · simp [ht] at h
    · simp only [Bool.not_eq_true] at ht
      by_cases hr : is_redirect_by_meta_tag parse (decodeContent e.item) = true
      · simp [ht, hr] at h
      · simp only [Bool.not_eq_true] at hr
        simp only [ht, hr, Bool.false_eq_true, if_false] at h
        split at h <;>
        · rw [Except.ok.injEq] at h
          subst h
          constructor
          · intro hor
            rcases hor with h1 | h1 <;> simp_all
          · intro hnor
            push_neg at hnor
            simp_all

/-! ## Lemmas about the scan loop -/

/-- A record accepted by the loop body carries the raw entry id it was
processed under. -/
theorem processEntry_ok_id (parse : String → List Node) (n : Nat) (e : Entry)
    (r : Record) (h : processEntry parse n e = Except.ok r) : r.id = n := by
  simp only [processEntry] at h
  by_cases ht : to_skip e = true
  · simp [ht] at h
  · simp only [Bool.not_eq_true] at ht
    by_cases hr : is_redirect_by_meta_tag parse (decodeContent e.item) = true
    · simp [ht, hr] at h
    · simp only [Bool.not_eq_true] at hr
      simp only [ht, hr, Bool.false_eq_true, if_false] at h
      split at h <;>
      · rw [Except.ok.injEq] at h
        subst h
        rfl

/-- A run of the loop only extends the accumulated records, attempted ids
and log. -/
theorem scanLoop_mono (parse : String → List Node) (ar : Archive) (limit : Nat) :
    ∀ (fuel eid count : Nat) (recs : List Record) (att : List Nat)
      (log : List String) (res : ScanResult),
      scanLoop parse ar limit fuel eid count recs att log = some res →
      recs <+: res.records ∧ att <+: res.attempted ∧ log <+: res.log := by
  intro fuel
  induction fuel with
  | zero =>
    intro eid count recs att log res h
    rw [scanLoop] at h
    by_cases hc : count < limit
    · simp [hc] at h
    · rw [if_neg hc] at h
      obtain rfl : (⟨recs, att, log⟩ : ScanResult) = res := Option.some.inj h
      exact ⟨List.prefix_refl _, List.prefix_refl _, List.prefix_refl _⟩
  | succ f ih =>
    intro eid count recs att log res h
    rw [scanLoop] at h
    by_cases hc : count < limit
    · rw [if_pos hc] at h
      split at h
      · obtain ⟨h1, h2, h3⟩ := ih _ _ _ _ _ _ h
        exact ⟨h1, (List.prefix_append _ _).trans h2,
          (List.prefix_append _ _).trans h3⟩
      · split at h
        · obtain ⟨h1, h2, h3⟩ := ih _ _ _ _ _ _ h
          exact ⟨h1, (List.prefix_append _ _).trans h2,
            (List.prefix_append _ _).trans h3⟩
        · obtain ⟨h1, h2, h3⟩ := ih _ _ _ _ _ _ h
          exact ⟨(List.prefix_append _ _).trans h1,
            (List.prefix_append _ _).trans h2, h3⟩
    · rw [if_neg hc] at h
      obtain rfl : (⟨recs, att, log⟩ : ScanResult) = res := Option.some.inj h
      exact ⟨List.prefix_refl _, List.prefix_refl _, List.prefix_refl _⟩

/-- When the loop condition holds on entry to a finishing run, the next raw
id is attempted. -/
theorem scanLoop_next_attempted (parse : String → List Node) (ar : Archive)
    (limit : Nat) (fuel eid count : Nat) (recs : List Record) (att : List Nat)
    (log : List String) (res : ScanResult)
    (h : scanLoop parse ar limit fuel eid count recs att log = some res)
    (hc : count < limit) : (eid + 1) ∈ res.attempted := by
  cases fuel with
  | zero =>
    rw [scanLoop, if_pos hc] at h
    exact absurd h (by simp)
  | succ f =>
    rw [scanLoop, if_pos hc] at h
    have hmem : eid + 1 ∈ att ++ [eid + 1] := by simp
    split at h
    · exact (scanLoop_mono parse ar limit _ _ _ _ _ _ _ h).2.1.sublist.subset hmem
    · split at h
      · exact (scanLoop_mono parse ar limit _ _ _ _ _ _ _ h).2.1.sublist.subset hmem
      · exact (scanLoop_mono parse ar limit _ _ _ _ _ _ _ h).2.1.sublist.subset hmem

/-- Soundness of a finishing run: the final records extend the accumulated
ones by records whose ids exceed the current raw id, each produced by a
successful lookup and a successful loop body at its own raw id, with the new
ids strictly increasing. -/
theorem scanLoop_sound (parse : String → List Node) (ar : Archive) (limit : Nat) :
    ∀ (fuel eid count : Nat) (recs : List Record) (att : List Nat)
      (log : List String) (res : ScanResult),
      scanLoop parse ar limit fuel eid count recs att log = some res →
      ∃ newRecs, res.records = recs ++ newRecs ∧
        (∀ r ∈ newRecs, eid < r.id ∧
          ∃ e, ar.getEntryById r.id = Except.ok e ∧
            processEntry parse r.id e = Except.ok r) ∧
        (newRecs.map Record.id).Chain' (· < ·) := by
  intro fuel
  induction fuel with
  | zero =>
    intro eid count recs att log res h
    rw [scanLoop] at h
    by_cases hc : count < limit
    · simp [hc] at h
    · rw [if_neg hc] at h
      obtain rfl : (⟨recs, att, log⟩ : ScanResult) = res := Option.some.inj h
      exact ⟨[], by simp, by simp, by simp⟩
  | succ f ih =>
    intro eid count recs att log res h
    rw [scanLoop] at h
    by_cases hc : count < limit
    · rw [if_pos hc] at h
      split at h
      · obtain ⟨nr, h1, h2, h3⟩ := ih _ _ _ _ _ _ h
        exact ⟨nr, h1, fun r hr =>
          ⟨Nat.lt_of_succ_lt (h2 r hr).1, (h2 r hr).2⟩, h3⟩
      · rename_i entry heq
        split at h
        · obtain ⟨nr, h1, h2, h3⟩ := ih _ _ _ _ _ _ h
          exact ⟨nr, h1, fun r hr =>
            ⟨Nat.lt_of_succ_lt (h2 r hr).1, (h2 r hr).2⟩, h3⟩
        · rename_i r hpe
          obtain ⟨nr, h1, h2, h3⟩ := ih _ _ _ _ _ _ h
          have hid : r.id = eid + 1 := processEntry_ok_id parse (eid + 1) entry r hpe
          refine ⟨r :: nr, by simpa using h1, ?_, ?_⟩
          · intro r' hr'
            rcases List.mem_cons.mp hr' with rfl | hr'
            · refine ⟨by omega, entry, ?_, ?_⟩
              · rw [hid]; exact heq
              · rw [hid]; exact hpe
            · exact ⟨by have := (h2 r' hr').1; omega, (h2 r' hr').2⟩
          · rw [List.map_cons]
            refine List.chain'_cons'.mpr ⟨?_, h3⟩
            intro b hb
            rw [List.head?_map] at hb
            cases hnr : nr.head? with
            | none => rw [hnr] at hb; simp at hb
            | some r' =>
              rw [hnr] at hb
              obtain rfl : r'.id = b := by simpa using hb
              have hr' : r' ∈ nr := by
                cases nr with
                | nil => simp at hnr
                | cons y ys =>
                  obtain rfl : y = r' := by simpa using hnr
                  exact List.mem_cons_self _ _
              have := (h2 r' hr').1
              omega
    · rw [if_neg hc] at h
      obtain rfl : (⟨recs, att, log⟩ : ScanResult) = res := Option.some.inj h
      exact ⟨[], by simp, by simp, by simp⟩

/-- A finishing run always fills the remaining quota: the final record count
is the accumulated count plus the remaining distance to the limit. -/
theorem scanLoop_complete (parse : String → List Node) (ar : Archive)
    (limit : Nat) :
    ∀ (fuel eid count : Nat) (recs : List Record) (att : List Nat)
      (log : List String) (res : ScanResult),
      scanLoop parse ar limit fuel eid count recs att log = some res →
      res.records.length = recs.length + (limit - count) := by
  intro fuel
  induction fuel with
  | zero =>
    intro eid count recs att log res h
    rw [scanLoop] at h
    by_cases hc : count < limit
    · simp [hc] at h
    · rw [if_neg hc] at h
      obtain rfl : (⟨recs, att, log⟩ : ScanResult) = res := Option.some.inj h
      have : limit - count = 0 := by omega
      simp [this]
  | succ f ih =>
    intro eid count recs att log res h
    rw [scanLoop] at h
    by_cases hc : count < limit
    · rw [if_pos hc] at h
      split at h
      · exact ih _ _ _ _ _ _ h
      · split at h
        · exact ih _ _ _ _ _ _ h
        · have := ih _ _ _ _ _ _ h
          rw [this]
          simp only [List.length_append, List.length_cons, List.length_nil]
          omega
    · rw [if_neg hc] at h
      obtain rfl : (⟨recs, att, log⟩ : ScanResult) = res := Option.some.inj h
      have : limit - count = 0 := by omega
      simp [this]

/-- Error handling of a finishing run: a newly attempted raw id whose lookup
fails is reported in the log with its cause, the next raw id is attempted,
and no final record carries the failing id. -/
theorem scanLoop_error_skipped (parse : String → List Node) (ar : Archive)
    (limit : Nat) (idq : Nat) (msg : String) :
    ∀ (fuel eid count : Nat) (recs : List Record) (att : List Nat)
      (log : List String) (res : ScanResult),
      scanLoop parse ar limit fuel eid count recs att log = some res →
      ar.getEntryById idq = Except.error msg →
      (∀ r ∈ recs, r.id ≠ idq) →
      idq ∉ att →
      idq ∈ res.attempted →
      ("skipping entry " ++ toString idq ++ ": " ++ msg) ∈ res.log ∧
      (idq + 1) ∈ res.attempted ∧
      (∀ r ∈ res.records, r.id ≠ idq) := by
  intro fuel
  induction fuel with
  | zero =>
    intro eid count recs att log res h herr hrecs hnin hmem
    rw [scanLoop] at h
    by_cases hc : count < limit
    · simp [hc] at h
    · rw [if_neg hc] at h
      obtain rfl : (⟨recs, att, log⟩ : ScanResult) = res := Option.some.inj h
      exact absurd hmem hnin
  | succ f ih =>
    intro eid count recs att log res h herr hrecs hnin hmem
    rw [scanLoop] at h
    by_cases hc : count < limit
    · rw [if_pos hc] at h
      by_cases hid : idq = eid + 1
      · subst hid
        rw [herr] at h
        refine ⟨?_, ?_, ?_⟩
        · have hlog : ("skipping entry " ++ toString (eid + 1) ++ ": " ++ msg) ∈
              log ++ ["skipping entry " ++ toString (eid + 1) ++ ": " ++ msg] := by
            simp
          exact (scanLoop_mono parse ar limit _ _ _ _ _ _ _ h).2.2.sublist.subset hlog
        · exact scanLoop_next_attempted parse ar limit _ _ _ _ _ _ _ h hc
        · obtain ⟨nr, h1, h2, _⟩ := scanLoop_sound parse ar limit _ _ _ _ _ _ _ h
          intro r hr
          rw [h1] at hr
          rcases List.mem_append.mp hr with hr | hr
          · exact hrecs r hr
          · have := (h2 r hr).1
            omega
      · cases heq : ar.getEntryById (eid + 1) with
        | error e =>
          rw [heq] at h
          exact ih _ _ _ _ _ _ h herr hrecs (by simp [hnin, hid]) hmem
        | ok entry =>
          rw [heq] at h
          cases hpe : processEntry parse (eid + 1) entry with
          | error m =>
            replace h : scanLoop parse ar limit f (eid + 1) count recs
                (att ++ [eid + 1]) (log ++ [m]) = some res := by
              rw [← h]
              simp only [hpe]
            exact ih _ _ _ _ _ _ h herr hrecs (by simp [hnin, hid]) hmem
          | ok r =>
            replace h : scanLoop parse ar limit f (eid + 1) (count + 1)
                (recs ++ [r]) (att ++ [eid + 1]) log = some res := by
              rw [← h]
              simp only [hpe]
            refine ih _ _ _ _ _ _ h herr ?_ (by simp [hnin, hid]) hmem
            intro r' hr'
            rcases List.mem_append.mp hr' with hr' | hr'
            · exact hrecs r' hr'
            · have hr2 : r' = r := by simpa using hr'
              rw [hr2, processEntry_ok_id parse (eid + 1) entry r hpe]
              omega
    · rw [if_neg hc] at h
      obtain rfl : (⟨recs, att, log⟩ : ScanResult) = res := Option.some.inj h
      exact absurd hmem hnin

/-! ## Claim C1 -/

/-- C1 counterexample: scanning `archiveA` (raw id 1 is a redirect, raw id 2
an image) with a requested maximum of 1 yields a single record whose `id` is
2, not 1: output ids are the raw entry ids, not a gapless sequence from 1. -/
theorem c1_counterexample :
    (iter_zim_entries emptyParse archiveA 4 1).map
        (fun res => res.records.map Record.id) = some [2] ∧ (2 : Nat) ≠ 1 :=
  ⟨rfl, by decide⟩

/-- C1 amended: the `id` of each output record is the raw archive entry id
at which the record was accepted (so ids are positive and strictly
increasing along the output), but they keep the gaps left by skipped raw
ids instead of forming a gapless sequence from 1. -/
theorem c1_amended_raw_ids (parse : String → List Node) (ar : Archive)
    (fuel maxo : Nat) (res : ScanResult)
    (h : iter_zim_entries parse ar fuel maxo = some res) :
    (res.records.map Record.id).Chain' (· < ·) ∧
    ∀ r ∈ res.records, 1 ≤ r.id ∧
      ∃ e, ar.getEntryById r.id = Except.ok e ∧
        processEntry parse r.id e = Except.ok r := by
  have h' : scanLoop parse ar (min maxo ar.entry_count) fuel 0 0 [] [] [] =
      some res := h
  obtain ⟨nr, h1, h2, h3⟩ := scanLoop_sound parse ar _ _ _ _ _ _ _ _ h'
  rw [h1]
  simp only [List.nil_append]
  exact ⟨h3, fun r hr => ⟨(h2 r hr).1, (h2 r hr).2⟩⟩

/-- Witness for the amended C1 on the concrete scan of `archiveA`. -/
theorem c1_amended_raw_ids_witness :
    (resultA.records.map Record.id).Chain' (· < ·) ∧
    ∀ r ∈ resultA.records, 1 ≤ r.id ∧
      ∃ e, archiveA.getEntryById r.id = Except.ok e ∧
        processEntry emptyParse r.id e = Except.ok r :=
  c1_amended_raw_ids emptyParse archiveA 4 1 resultA (by rfl)

/-! ## Claim C2 -/

/-- C2: scanning `archiveA` (2 entries, raw id 1 a redirect) with
`max_objects = 2` never terminates: for every number of loop iterations the
run is still unfinished, because after raw id 2 every lookup fails and the
failing ids are attempted forever, unbounded by the entry count or by the
requested maximum. -/
theorem c2_scan_nonterminating :
    ∀ fuel : Nat, iter_zim_entries emptyParse archiveA fuel 2 = none := by
  have key : ∀ (f eid : Nat), 2 ≤ eid → ∀ (recs : List Record) (att : List Nat)
      (log : List String),
      scanLoop emptyParse archiveA 2 f eid 1 recs att log = none := by
    intro f
    induction f with
    | zero =>
      intro eid h2 recs att log
      rw [scanLoop]
      simp
    | succ f ih =>
      intro eid h2 recs att log
      rw [scanLoop, if_pos (by omega : (1 : Nat) < 2)]
      have herr : archiveA.getEntryById (eid + 1) =
          Except.error "index out of range" := by
        simp only [archiveA]
        rw [if_neg (by omega), if_neg (by omega)]
      rw [herr]
      exact ih (eid + 1) (by omega) _ _ _
  intro fuel
  match fuel with
  | 0 => rfl
  | 1 => rfl
  | (f + 2) =>
    have s2 : iter_zim_entries emptyParse archiveA (f + 2) 2 =
        scanLoop emptyParse archiveA 2 f 2 1 [imageRecord] [1, 2]
          ["skipping Old"] := rfl
    exact s2.trans (key f 2 (by omega) _ _ _)

/-! ## Claim C3 -/

/-- C3 counterexample: `imageEntry` is binary (mimetype not starting with
`text`) and passes the structural skip, yet the loop body invokes the
meta-refresh check on its base64-encoded content and, under a parser that
reports a refresh meta for it, excludes the entry because of that check. -/
theorem c3_counterexample :
    pyStartsWith imageEntry.item.mimetype "text" = false ∧
    to_skip imageEntry = false ∧
    is_redirect_by_meta_tag metaRefreshParse (decodeContent imageEntry.item) =
      true ∧
    processEntry metaRefreshParse 1 imageEntry =
      Except.error "skipping pic.png" :=
  ⟨rfl, rfl, rfl, rfl⟩

/-- C3 amended: the meta-refresh check is invoked on the decoded content of
every entry that passes the structural skip, the base64 text of binary
entries included; for any such entry the loop body rejects it exactly when
the check on that decoded content reports a redirect. -/
theorem c3_amended_check_on_all_content (parse : String → List Node) (eid : Nat)
    (e : Entry) (ht : to_skip e = false) :
    (∃ msg, processEntry parse eid e = Except.error msg) ↔
      is_redirect_by_meta_tag parse (decodeContent e.item) = true := by
  simp only [processEntry, ht, Bool.false_eq_true, if_false]
  by_cases hr : is_redirect_by_meta_tag parse (decodeContent e.item) = true
  · simp [hr]
  · simp only [Bool.not_eq_true] at hr
    simp only [hr, Bool.false_eq_true, if_false]
    constructor
    · rintro ⟨msg, hm⟩
      split at hm <;> simp at hm
    · intro hcon
      simp at hcon

/-- Witness for the amended C3 at the concrete binary entry. -/
theorem c3_amended_witness :
    to_skip imageEntry = false ∧
    ((∃ msg, processEntry metaRefreshParse 1 imageEntry = Except.error msg) ↔
      is_redirect_by_meta_tag metaRefreshParse (decodeContent imageEntry.item) =
        true) :=
  ⟨rfl, c3_amended_check_on_all_content metaRefreshParse 1 imageEntry rfl⟩

/-! ## Claim C9 -/

/-- C9: in any finished scan, a raw id that was attempted but whose lookup
failed is reported in the log together with its cause, the next raw id is
attempted, no output record carries the failing id, and the scan still
produces its full quota of `min max_objects entry_count` records. -/
theorem c9_lookup_failure_recoverable (parse : String → List Node)
    (ar : Archive) (fuel maxo : Nat) (res : ScanResult) (idq : Nat)
    (msg : String)
    (h : iter_zim_entries parse ar fuel maxo = some res)
    (herr : ar.getEntryById idq = Except.error msg)
    (hmem : idq ∈ res.attempted) :
    ("skipping entry " ++ toString idq ++ ": " ++ msg) ∈ res.log ∧
    (idq + 1) ∈ res.attempted ∧
    (∀ r ∈ res.records, r.id ≠ idq) ∧
    res.records.length = min maxo ar.entry_count := by
  have h' : scanLoop parse ar (min maxo ar.entry_count) fuel 0 0 [] [] [] =
      some res := h
  have hmain := scanLoop_error_skipped parse ar _ idq msg _ _ _ _ _ _ _ h' herr
    (by simp) (by simp) hmem
  have hlen := scanLoop_complete parse ar _ _ _ _ _ _ _ _ h'
  exact ⟨hmain.1, hmain.2.1, hmain.2.2, by simpa using hlen⟩

/-- Witness for C9 on the concrete scan of `archiveB`, whose raw id 1 fails
with cause `boom`. -/
theorem c9_witness :
    ("skipping entry " ++ toString 1 ++ ": " ++ "boom") ∈ resultB.log ∧
    (1 + 1) ∈ resultB.attempted ∧
    (∀ r ∈ resultB.records, r.id ≠ 1) ∧
    resultB.records.length = min 1 archiveB.entry_count :=
  c9_lookup_failure_recoverable emptyParse archiveB 4 1 resultB 1 "boom"
    (by rfl) (by rfl) (by decide)

/-- Witness for the pipeline half of C7 at a concrete accepted article. -/
theorem c7_main_fragment_witness :
    processEntry emptyParse 5 articleEntry = Except.ok articleRecord ∧
    ((articleRecord.type = "article" ∨ articleRecord.type = "category") →
      articleRecord.content =
        get_main_content emptyParse (decodeContent articleEntry.item)) ∧
    (¬(articleRecord.type = "article" ∨ articleRecord.type = "category") →
      articleRecord.content = decodeContent articleEntry.item) := by
  have h : processEntry emptyParse 5 articleEntry = Except.ok articleRecord := rfl
  exact ⟨h, c7_main_fragment.2 emptyParse 5 articleEntry articleRecord h⟩

/-! ## Claim C10 -/

/-- Every 6-bit group maps into the base64 alphabet. -/
theorem b64Char_mem (k : Nat) : b64Char k ∈ b64Alphabet := by
  unfold b64Char List.getD
  cases hg : b64Alphabet.get? k with
  | none => simp [hg]; decide
  | some c =>
    simp only [hg, Option.getD_some]
    exact List.get?_mem hg

/-- Every character of a base64 encoding is an alphabet character or the
padding character. -/
theorem b64encode_mem :
    ∀ (bs : List Nat), ∀ ch ∈ b64encode bs, ch ∈ b64Alphabet ∨ ch = '=' := by
  have key : ∀ (n : Nat) (bs : List Nat), bs.length ≤ n →
      ∀ ch ∈ b64encode bs, ch ∈ b64Alphabet ∨ ch = '=' := by
    intro n
    induction n with
    | zero =>
      intro bs h ch hc
      have : bs = [] := List.length_eq_zero.mp (Nat.le_zero.mp h)
      subst this
      simp [b64encode] at hc
    | succ n ih =>
      intro bs h ch hc
      rcases bs with _ | ⟨a, bs2⟩
      · simp [b64encode] at hc
      rcases bs2 with _ | ⟨b, bs3⟩
      · simp only [b64encode, List.mem_cons, List.not_mem_nil, or_false] at hc
        rcases hc with rfl | rfl | rfl | rfl
        · exact Or.inl (b64Char_mem _)
        · exact Or.inl (b64Char_mem _)
        · exact Or.inr rfl
        · exact Or.inr rfl
      rcases bs3 with _ | ⟨c3, rest⟩
      · simp only [b64encode, List.mem_cons, List.not_mem_nil, or_false] at hc
        rcases hc with rfl | rfl | rfl | rfl
        · exact Or.inl (b64Char_mem _)
        · exact Or.inl (b64Char_mem _)
        · exact Or.inl (b64Char_mem _)
        · exact Or.inr rfl
      · simp only [b64encode, List.cons_append, List.nil_append,
          List.mem_cons] at hc
        rcases hc with rfl | rfl | rfl | rfl | hc
        · exact Or.inl (b64Char_mem _)
        · exact Or.inl (b64Char_mem _)
        · exact Or.inl (b64Char_mem _)
        · exact Or.inl (b64Char_mem _)
        · exact ih rest (by simp at h; omega) ch hc
  exact fun bs => key bs.length bs le_rfl

/-- A base64 encoding never contains the markup opener character. -/
theorem b64encode_no_langle (bs : List Nat) : '<' ∉ b64encode bs := by
  intro h
  rcases b64encode_mem bs '<' h with hmem | heq
  · exact absurd hmem (by decide)
  · exact absurd heq (by decide)

/-- C10: base64 text contains only alphabet characters and padding, in
particular never the markup opener; therefore, for any parser that produces
no elements from a string free of that character, the meta-refresh check on
the decoded content of a binary entry reports not-a-redirect, and a binary
entry that passes the structural skip always yields an output record. -/
theorem c10_base64_binary_safe :
    (∀ (bs : List Nat), ∀ ch ∈ b64encode bs, ch ∈ b64Alphabet ∨ ch = '=') ∧
    (∀ bs : List Nat, '<' ∉ b64encode bs) ∧
    (∀ (parse : String → List Node),
      (∀ s : String, (∀ ch ∈ s.data, ch ≠ '<') →
        nodesFindAll "meta" (parse s) = []) →
      ∀ (eid : Nat) (e : Entry),
        pyStartsWith e.item.mimetype "text" = false →
        to_skip e = false →
        is_redirect_by_meta_tag parse (decodeContent e.item) = false ∧
        ∃ r, processEntry parse eid e = Except.ok r) := by
  refine ⟨b64encode_mem, b64encode_no_langle, ?_⟩
  intro parse hparse eid e hmime ht
  have hdec : decodeContent e.item = String.mk (b64encode e.item.content) := by
    simp [decodeContent, hmime]
  have hmeta : nodesFindAll "meta" (parse (decodeContent e.item)) = [] := by
    apply hparse
    rw [hdec]
    intro ch hch heq
    exact b64encode_no_langle e.item.content (heq ▸ hch)
  have hred : is_redirect_by_meta_tag parse (decodeContent e.item) = false := by
    simp [is_redirect_by_meta_tag, hmeta]
  refine ⟨hred, ?_⟩
  simp only [processEntry, ht, Bool.false_eq_true, if_false, hred]
  split
  · exact ⟨_, rfl⟩
  · exact ⟨_, rfl⟩

/-- Witness for C10 with the empty-document parser and the concrete binary
entry. -/
theorem c10_base64_binary_safe_witness :
    (∀ s : String, (∀ ch ∈ s.data, ch ≠ '<') →
      nodesFindAll "meta" (emptyParse s) = []) ∧
    (is_redirect_by_meta_tag emptyParse (decodeContent imageEntry.item) = false ∧
      ∃ r, processEntry emptyParse 7 imageEntry = Except.ok r) := by
  have hp : ∀ s : String, (∀ ch ∈ s.data, ch ≠ '<') →
      nodesFindAll "meta" (emptyParse s) = [] := fun _ _ => rfl
  exact ⟨hp, c10_base64_binary_safe.2.2 emptyParse hp 7 imageEntry rfl rfl⟩
